import Mathlib

set_option maxRecDepth 1000000
set_option maxHeartbeats 2000000

/-!
Verification of the SM3-based 4KB integrity-check implementation.

The development shallowly embeds the C sources:
  * `src/sm3_4kb_complete1.c`   — namespace `Complete1`
  * `src/test1.1/aes_sm3_integrity.c` — namespace `AesV`
Machine 32-bit words are modelled as `Nat` reduced modulo `2 ^ 32` at every
operation that can overflow; byte buffers are `List Nat` with entries below
256; `memcpy` on a little-endian host is modelled by the explicit
little-endian load/store helpers below.
-/

namespace SM3Spec

/-- 32-bit rotate left, as the C idiom `(x << n) | (x >> (32 - n))` on `uint32_t`. -/
def rotl32 (x n : Nat) : Nat := ((x <<< n) % 2 ^ 32) ||| (x >>> (32 - n))

/-- `__builtin_bswap32`. -/
def bswap32 (x : Nat) : Nat :=
  ((x % 256) <<< 24) ||| (((x >>> 8) % 256) <<< 16) |||
  (((x >>> 16) % 256) <<< 8) ||| ((x >>> 24) % 256)

/-- `__builtin_bswap64`. -/
def bswap64 (x : Nat) : Nat :=
  ((x % 256) <<< 56) ||| (((x >>> 8) % 256) <<< 48) |||
  (((x >>> 16) % 256) <<< 40) ||| (((x >>> 24) % 256) <<< 32) |||
  (((x >>> 32) % 256) <<< 24) ||| (((x >>> 40) % 256) <<< 16) |||
  (((x >>> 48) % 256) <<< 8) ||| ((x >>> 56) % 256)

/-- Loading one `uint32_t` from four consecutive bytes on a little-endian host. -/
def le32 (b0 b1 b2 b3 : Nat) : Nat := b0 ||| (b1 <<< 8) ||| (b2 <<< 16) ||| (b3 <<< 24)

/-- Reinterpreting a byte buffer as an array of `uint32_t` (little-endian host),
as done by `memcpy` from the padded buffer into `uint32_t block[16]`. -/
def toWordsLE : List Nat → List Nat
  | b0 :: b1 :: b2 :: b3 :: rest => le32 b0 b1 b2 b3 :: toWordsLE rest
  | _ => []

/-- Storing one `uint32_t` to four consecutive bytes on a little-endian host. -/
def le32bytes (x : Nat) : List Nat :=
  [x % 256, (x >>> 8) % 256, (x >>> 16) % 256, (x >>> 24) % 256]

/-- Storing one `uint64_t` to eight consecutive bytes on a little-endian host. -/
def le64bytes (x : Nat) : List Nat :=
  [x % 256, (x >>> 8) % 256, (x >>> 16) % 256, (x >>> 24) % 256,
   (x >>> 32) % 256, (x >>> 40) % 256, (x >>> 48) % 256, (x >>> 56) % 256]

/-- Chunking worker with an explicit structural bound (the bound only has to
dominate the list length, which shrinks by 16 per step). -/
def chunkGo : Nat → List Nat → List (List Nat)
  | _, [] => []
  | 0, _ => []
  | fuel + 1, x :: xs => ((x :: xs).take 16) :: chunkGo fuel ((x :: xs).drop 16)

/-- Splitting a word array into consecutive groups of 16 words (one 512-bit
block per group), mirroring the 64-byte stride of the block pointer. -/
def chunk16 (l : List Nat) : List (List Nat) := chunkGo l.length l

namespace Complete1

/-- `SM3_IV` from `sm3_4kb_complete1.c`. -/
def SM3_IV : List Nat :=
  [0x7380166f, 0x4914b2b9, 0x172442d7, 0xda8a0600,
   0xa96f30bc, 0x163138aa, 0xe38dee4d, 0xb0fb0e4e]

/-- `SM3_Tj` from `sm3_4kb_complete1.c`: 16 copies of `0x79cc4519` followed by
48 copies of `0x7a879d8a` (the UNROTATED base constants). -/
def SM3_Tj : List Nat :=
  [0x79cc4519, 0x79cc4519, 0x79cc4519, 0x79cc4519,
   0x79cc4519, 0x79cc4519, 0x79cc4519, 0x79cc4519,
   0x79cc4519, 0x79cc4519, 0x79cc4519, 0x79cc4519,
   0x79cc4519, 0x79cc4519, 0x79cc4519, 0x79cc4519,
   0x7a879d8a, 0x7a879d8a, 0x7a879d8a, 0x7a879d8a,
   0x7a879d8a, 0x7a879d8a, 0x7a879d8a, 0x7a879d8a,
   0x7a879d8a, 0x7a879d8a, 0x7a879d8a, 0x7a879d8a,
   0x7a879d8a, 0x7a879d8a, 0x7a879d8a, 0x7a879d8a,
   0x7a879d8a, 0x7a879d8a, 0x7a879d8a, 0x7a879d8a,
   0x7a879d8a, 0x7a879d8a, 0x7a879d8a, 0x7a879d8a,
   0x7a879d8a, 0x7a879d8a, 0x7a879d8a, 0x7a879d8a,
   0x7a879d8a, 0x7a879d8a, 0x7a879d8a, 0x7a879d8a,
   0x7a879d8a, 0x7a879d8a, 0x7a879d8a, 0x7a879d8a,
   0x7a879d8a, 0x7a879d8a, 0x7a879d8a, 0x7a879d8a,
   0x7a879d8a, 0x7a879d8a, 0x7a879d8a, 0x7a879d8a,
   0x7a879d8a, 0x7a879d8a, 0x7a879d8a, 0x7a879d8a]

/-- `P0` permutation. -/
def P0 (x : Nat) : Nat := x ^^^ rotl32 x 9 ^^^ rotl32 x 17

/-- `P1` permutation. -/
def P1 (x : Nat) : Nat := x ^^^ rotl32 x 15 ^^^ rotl32 x 23

/-- `FF` boolean function. -/
def FF (x y z : Nat) (j : Nat) : Nat :=
  if j < 16 then x ^^^ y ^^^ z else (x &&& y) ||| (x &&& z) ||| (y &&& z)

/-- `GG` boolean function; `~x` on `uint32_t` is `x ^^^ 0xFFFFFFFF`. -/
def GG (x y z : Nat) (j : Nat) : Nat :=
  if j < 16 then x ^^^ y ^^^ z else (x &&& y) ||| ((x ^^^ 0xFFFFFFFF) &&& z)

/-- Working registers `A..H` of the compression round loop. -/
structure Regs where
  A : Nat
  B : Nat
  C : Nat
  D : Nat
  E : Nat
  F : Nat
  G : Nat
  H : Nat
deriving DecidableEq

/-- The `SS1` computation of the software round body in `sm3_compress_hw`:
`SS1 = ((A << 12)|(A >> 20)) + E + SM3_Tj[j]` (wrapping), then rotate by 7.
The table entry is used directly; no per-round rotation is applied. -/
def roundSS1 (A E : Nat) (j : Nat) : Nat :=
  rotl32 ((rotl32 A 12 + E + SM3_Tj.getD j 0) % 2 ^ 32) 7

/-- One iteration of the 64-round main loop of `sm3_compress_hw`. -/
def round1 (W W_ : List Nat) (r : Regs) (j : Nat) : Regs :=
  let SS1 := roundSS1 r.A r.E j
  let SS2 := SS1 ^^^ rotl32 r.A 12
  let TT1 := (FF r.A r.B r.C j + r.D + SS2 + W_.getD j 0) % 2 ^ 32
  let TT2 := (GG r.E r.F r.G j + r.H + SS1 + W.getD j 0) % 2 ^ 32
  ⟨TT1, r.A, rotl32 r.B 9, r.C, P0 TT2, r.E, rotl32 r.F 19, r.G⟩

/-- Message expansion `W[0..67]`: `W[j] = bswap32(block[j])` for `j < 16`, then
`W[j] = P1(W[j-16] ^ W[j-9] ^ rotl(W[j-3],15)) ^ rotl(W[j-13],7) ^ W[j-6]`. -/
def expandW (block : List Nat) : List Nat :=
  (List.range' 16 52).foldl
    (fun w j =>
      w ++ [P1 (w.getD (j - 16) 0 ^^^ w.getD (j - 9) 0 ^^^ rotl32 (w.getD (j - 3) 0) 15) ^^^
            rotl32 (w.getD (j - 13) 0) 7 ^^^ w.getD (j - 6) 0])
    (block.map bswap32)

/-- `sm3_compress_hw` of `sm3_4kb_complete1.c` (software path): message
expansion, 64 rounds on registers loaded from `state`, final xor with the
original state.  `block` holds the 16 words as read from memory (the byte
swap happens inside, as in the source). -/
def sm3_compress_hw (state block : List Nat) : List Nat :=
  let W := expandW block
  let W_ := (List.range 64).map (fun j => W.getD j 0 ^^^ W.getD (j + 4) 0)
  let r0 : Regs := ⟨state.getD 0 0, state.getD 1 0, state.getD 2 0, state.getD 3 0,
                    state.getD 4 0, state.getD 5 0, state.getD 6 0, state.getD 7 0⟩
  let r := (List.range 64).foldl (round1 W W_) r0
  [state.getD 0 0 ^^^ r.A, state.getD 1 0 ^^^ r.B, state.getD 2 0 ^^^ r.C,
   state.getD 3 0 ^^^ r.D, state.getD 4 0 ^^^ r.E, state.getD 5 0 ^^^ r.F,
   state.getD 6 0 ^^^ r.G, state.getD 7 0 ^^^ r.H]

/-- `sm3_padding_4kb`: copy the (4096-byte) input, append `0x80`, 55 zero
bytes and the 64-bit big-endian bit length `4096 * 8` (`bswap64` then a
little-endian 8-byte store, as in the source). -/
def sm3_padding_4kb (input : List Nat) : List Nat :=
  input.take 4096 ++ [0x80] ++ List.replicate 55 0 ++ le64bytes (bswap64 (4096 * 8))

/-- One of the two inner unrolled loops of `sm3_4kb_optimized`:
`for (j = j0; j < jmax && i + j < 65; j++)` — each iteration copies the next
64-byte block from the running block pointer (the head of `bs`) and feeds it
through `sm3_compress_hw`. -/
def innerLoop (jmax i j : Nat) (st : List Nat) (bs : List (List Nat)) :
    List Nat × List (List Nat) :=
  match bs with
  | [] => (st, [])
  | b :: rest =>
    if j < jmax ∧ i + j < 65 then innerLoop jmax i (j + 1) (sm3_compress_hw st b) rest
    else (st, b :: rest)

/-- The outer unrolled loop of `sm3_4kb_optimized`:
`for (i = 0; i < 65; i += 8)` running the two inner loops (`j = 0..3` and
`j = 4..7`, both guarded by `i + j < 65`). -/
def outerLoop (i : Nat) (st : List Nat) (bs : List (List Nat)) :
    List Nat × List (List Nat) :=
  if i < 65 then
    outerLoop (i + 8)
      (innerLoop 8 i 4 (innerLoop 4 i 0 st bs).1 (innerLoop 4 i 0 st bs).2).1
      (innerLoop 8 i 4 (innerLoop 4 i 0 st bs).1 (innerLoop 4 i 0 st bs).2).2
  else (st, bs)
termination_by 65 - i
decreasing_by omega

/-- `sm3_4kb_optimized`: pad the 4096-byte input to 4160 bytes, initialize the
state to `SM3_IV`, run the unrolled block loop over the 65 blocks, and output
the state words byte-swapped (big-endian serialization). -/
def sm3_4kb_optimized (input : List Nat) : List Nat :=
  ((outerLoop 0 SM3_IV (chunk16 (toWordsLE (sm3_padding_4kb input)))).1).flatMap
    (fun w => le32bytes (bswap32 w))

/-- `sm3_4kb_128bit`: compute the 256-bit digest and keep the first 16 bytes. -/
def sm3_4kb_128bit (input : List Nat) : List Nat :=
  (sm3_4kb_optimized input).take 16

/-- The thread-count adjustment at the top of `sm3_4kb_parallel`:
`if (num_threads > available_cores) num_threads = available_cores;`.
The message count plays no part in it. -/
def numThreads (num_threads available_cores : Nat) : Nat :=
  if num_threads > available_cores then available_cores else num_threads

/-- `blocks_per_thread = block_count / num_threads` from `thread_worker`. -/
def blocks_per_thread (block_count t : Nat) : Nat := block_count / t

/-- `start_block = thread_id * blocks_per_thread` from `thread_worker`. -/
def start_block (tid block_count t : Nat) : Nat := tid * blocks_per_thread block_count t

/-- `end_block` from `thread_worker`: the last thread takes everything up to
`block_count`, the others take `start_block + blocks_per_thread`. -/
def end_block (tid block_count t : Nat) : Nat :=
  if tid = t - 1 then block_count else start_block tid block_count t + blocks_per_thread block_count t

/-- The writes performed by one worker (`thread_worker`): for each message
index `i` in its range it stores `sm3_4kb_optimized` of the `i`-th 4096-byte
message into output slot `i`.  The flat input buffer is modelled as the list
of its 4096-byte messages. -/
def thread_worker (msgs : List (List Nat)) (t tid : Nat) : List (Nat × List Nat) :=
  (List.range' (start_block tid msgs.length t)
      (end_block tid msgs.length t - start_block tid msgs.length t)).map
    (fun i => (i, sm3_4kb_optimized (msgs.getD i [])))

/-- Applying a list of output-slot writes to the output buffer.  Slots are
`Option`-valued: `none` models a byte range the workers never wrote. -/
def applyWrites : List (Option (List Nat)) → List (Nat × List Nat) → List (Option (List Nat))
  | out, [] => out
  | out, p :: rest => applyWrites (out.set p.1 (some p.2)) rest

/-- `sm3_4kb_parallel`: clamp the thread count to the available cores, then
let workers `0..t-1` fill the caller-supplied output buffer `out0`.  The
workers write pairwise disjoint slots, so the concurrent execution is
modelled by applying their writes in worker order. -/
def sm3_4kb_parallel (msgs : List (List Nat)) (out0 : List (Option (List Nat)))
    (num_threads available_cores : Nat) : List (Option (List Nat)) :=
  applyWrites out0
    ((List.range (numThreads num_threads available_cores)).flatMap
      (thread_worker msgs (numThreads num_threads available_cores)))

/-- `sm3_4kb_batch_optimized`: allocate a padded buffer (`allocOk` models
whether `malloc` succeeds; on failure the function just returns, leaving the
caller's output buffer `out0` untouched and reporting nothing), pad every
message with a 4160-byte stride, then hand the padded buffer to
`sm3_4kb_parallel` — which reads the messages back at a 4096-byte stride. -/
def sm3_4kb_batch_optimized (allocOk : Bool) (msgs : List (List Nat))
    (out0 : List (Option (List Nat))) (cores : Nat) : List (Option (List Nat)) :=
  if allocOk then
    sm3_4kb_parallel
      ((List.range msgs.length).map
        (fun i => ((msgs.flatMap sm3_padding_4kb).drop (4096 * i)).take 4096))
      out0 cores cores
  else out0

end Complete1

namespace AesV

/-- `SM3_IV` from `aes_sm3_integrity.c` (identical to the other file). -/
def SM3_IV : List Nat :=
  [0x7380166f, 0x4914b2b9, 0x172442d7, 0xda8a0600,
   0xa96f30bc, 0x163138aa, 0xe38dee4d, 0xb0fb0e4e]

/-- `SM3_Tj` from `aes_sm3_integrity.c`: a 64-entry literal table (the first
16 entries are `rotl(0x79cc4519, j)`, the remaining 48 are other values). -/
def SM3_Tj : List Nat :=
  [0x79cc4519, 0xf3988a32, 0xe7311465, 0xce6228cb,
   0x9cc45197, 0x3988a32f, 0x7311465e, 0xe6228cbc,
   0xcc451979, 0x988a32f3, 0x311465e7, 0x6228cbce,
   0xc451979c, 0x88a32f39, 0x11465e73, 0x228cbce6,
   0xfc6325e8, 0x8c3111f1, 0xd89e0ea0, 0x324e8fba,
   0x7a6d76e9, 0xe39049a7, 0x3064997a, 0xc0ac29b7,
   0x6c9e0e8b, 0xbcc77454, 0x54b8fb07, 0x389708c4,
   0x76f988da, 0x4eeaff9f, 0xf2d7da3e, 0xcaa7c8a2,
   0x854cc7f8, 0xd73c9cff, 0x6fa87e4f, 0x68581511,
   0xb469951f, 0x49be4e42, 0xf61e2562, 0xc049b344,
   0xeaa127fa, 0xd4ef3085, 0x0f163c50, 0xd9a57a7a,
   0x44f77958, 0x39f1690f, 0x823ed616, 0x38eb44a8,
   0xf8f7c099, 0x6247eaae, 0xa4db0d69, 0xc0c92493,
   0xbcd02b18, 0x5c95bf94, 0xec3877e3, 0x533a81c6,
   0x516b9b9c, 0x60a884a1, 0x4587f9fb, 0x4ee4b248,
   0xf6cb677e, 0x8d2a4c8a, 0x3c071363, 0x4c9c1032]

/-- `P0` permutation (same definition as in the other file). -/
def P0 (x : Nat) : Nat := x ^^^ rotl32 x 9 ^^^ rotl32 x 17

/-- `P1` permutation (same definition as in the other file). -/
def P1 (x : Nat) : Nat := x ^^^ rotl32 x 15 ^^^ rotl32 x 23

/-- The `SS1` computation of the round bodies in this file:
`rot_a + E + (SM3_Tj[j] << (j % 32))` (a `uint32_t` left SHIFT of the table
entry, truncating), then rotate by 7. -/
def roundSS1 (A E : Nat) (j : Nat) : Nat :=
  rotl32 ((rotl32 A 12 + E + (SM3_Tj.getD j 0 <<< (j % 32)) % 2 ^ 32) % 2 ^ 32) 7

/-- One round of the first, fully xor-based loop (rounds 0..15; the source
unrolls it 4-way with identical bodies). -/
def roundLo (W W_ : List Nat) (r : Complete1.Regs) (j : Nat) : Complete1.Regs :=
  let SS1 := roundSS1 r.A r.E j
  let SS2 := SS1 ^^^ rotl32 r.A 12
  let TT1 := ((r.A ^^^ r.B ^^^ r.C) + r.D + SS2 + W_.getD j 0) % 2 ^ 32
  let TT2 := ((r.E ^^^ r.F ^^^ r.G) + r.H + SS1 + W.getD j 0) % 2 ^ 32
  ⟨TT1, r.A, rotl32 r.B 9, r.C, P0 TT2, r.E, rotl32 r.F 19, r.G⟩

/-- One round of the second loop (rounds 16..63; the source unrolls it 2-way
with identical bodies).  `~E` on `uint32_t` is `E ^^^ 0xFFFFFFFF`. -/
def roundHi (W W_ : List Nat) (r : Complete1.Regs) (j : Nat) : Complete1.Regs :=
  let SS1 := roundSS1 r.A r.E j
  let SS2 := SS1 ^^^ rotl32 r.A 12
  let TT1 := (((r.A &&& r.B) ||| (r.A &&& r.C) ||| (r.B &&& r.C)) + r.D + SS2 + W_.getD j 0) % 2 ^ 32
  let TT2 := (((r.E &&& r.F) ||| ((r.E ^^^ 0xFFFFFFFF) &&& r.G)) + r.H + SS1 + W.getD j 0) % 2 ^ 32
  ⟨TT1, r.A, rotl32 r.B 9, r.C, P0 TT2, r.E, rotl32 r.F 19, r.G⟩

/-- Message expansion of this file: `W[0..15] = block[0..15]` (the caller has
already byte-swapped), then the same recurrence (the source computes it with
a 4-way unrolled loop of identical steps). -/
def expandW (block : List Nat) : List Nat :=
  (List.range' 16 52).foldl
    (fun w j =>
      w ++ [P1 (w.getD (j - 16) 0 ^^^ w.getD (j - 9) 0 ^^^ rotl32 (w.getD (j - 3) 0) 15) ^^^
            rotl32 (w.getD (j - 13) 0) 7 ^^^ w.getD (j - 6) 0])
    block

/-- `sm3_compress_hw` of `aes_sm3_integrity.c`: expansion, 16 low rounds,
48 high rounds, final xor with the original state.  `block` holds the 16
already byte-swapped words, as in the source. -/
def sm3_compress_hw (state block : List Nat) : List Nat :=
  let W := expandW block
  let W_ := (List.range 64).map (fun j => W.getD j 0 ^^^ W.getD (j + 4) 0)
  let r0 : Complete1.Regs := ⟨state.getD 0 0, state.getD 1 0, state.getD 2 0, state.getD 3 0,
                              state.getD 4 0, state.getD 5 0, state.getD 6 0, state.getD 7 0⟩
  let r1 := (List.range 16).foldl (roundLo W W_) r0
  let r := (List.range' 16 48).foldl (roundHi W W_) r1
  [state.getD 0 0 ^^^ r.A, state.getD 1 0 ^^^ r.B, state.getD 2 0 ^^^ r.C,
   state.getD 3 0 ^^^ r.D, state.getD 4 0 ^^^ r.E, state.getD 5 0 ^^^ r.F,
   state.getD 6 0 ^^^ r.G, state.getD 7 0 ^^^ r.H]

/-- The XOR fold of one 128-byte group (software path of
`aes_sm3_integrity_256bit`): output byte `k` is the xor of the 16 input
bytes `block[8*t + k]`, `t = 0..15` (fully unrolled in the source). -/
def xorFoldGroup (block : List Nat) : List Nat :=
  (List.range 8).map (fun k => (List.range 16).foldl (fun acc t => acc ^^^ block.getD (8 * t + k) 0) 0)

/-- First stage of `aes_sm3_integrity_256bit`: 32 groups of 128 bytes, each
folded to 8 bytes (4096 bytes to 256 bytes). -/
def xorFold (input : List Nat) : List Nat :=
  (List.range 32).flatMap (fun i => xorFoldGroup ((input.drop (128 * i)).take 128))

/-- `aes_sm3_integrity_256bit`: XOR fold to 256 bytes, then 4 SM3 compression
calls on the byte-swapped 64-byte chunks, then big-endian serialization. -/
def aes_sm3_integrity_256bit (input : List Nat) : List Nat :=
  let compressed := xorFold input
  let st := (List.range 4).foldl
    (fun s i => sm3_compress_hw s ((toWordsLE ((compressed.drop (64 * i)).take 64)).map bswap32))
    SM3_IV
  st.flatMap (fun w => le32bytes (bswap32 w))

/-- `aes_sm3_integrity_128bit`: the first 16 bytes of the 256-bit digest. -/
def aes_sm3_integrity_128bit (input : List Nat) : List Nat :=
  (aes_sm3_integrity_256bit input).take 16

end AesV

/-- Modelled from the spec: the general padding rule of §4.1 for a message of
arbitrary length L (the source implements padding only for L = 4096):
message, then `0x80`, then zeros up to `ceil((L+9)/64)*64 - 8`, then the
64-bit big-endian bit length `L*8`. -/
def sm3_pad_spec (msg : List Nat) : List Nat :=
  msg ++ [0x80] ++ List.replicate ((msg.length + 9 + 63) / 64 * 64 - msg.length - 9) 0 ++
  le64bytes (bswap64 (8 * msg.length))

/-- Digest of a message padded per the §4.1 rule and folded through
`Complete1.sm3_compress_hw` from the SM3 IV, serialized big-endian
(`bswap32` then little-endian store, as in the source output loop). -/
def digest_per_spec_pad (msg : List Nat) : List Nat :=
  ((chunk16 (toWordsLE (sm3_pad_spec msg))).foldl Complete1.sm3_compress_hw Complete1.SM3_IV).flatMap
    (fun w => le32bytes (bswap32 w))

end SM3Spec

namespace SM3Spec

/-- A buffer of length `4 * k` yields `k` words. -/
lemma toWordsLE_len : ∀ (k : Nat) (l : List Nat), l.length = 4 * k → (toWordsLE l).length = k := by
  intro k
  induction k with
  | zero =>
    intro l h
    have hl : l = [] := List.eq_nil_of_length_eq_zero (by omega)
    subst hl
    rfl
  | succ n ih =>
    intro l h
    rcases l with _ | ⟨b0, l⟩
    · simp at h
    rcases l with _ | ⟨b1, l⟩
    · simp at h; omega
    rcases l with _ | ⟨b2, l⟩
    · simp at h; omega
    rcases l with _ | ⟨b3, l⟩
    · simp at h; omega
    have hr : l.length = 4 * n := by simp at h; omega
    simp [toWordsLE, ih l hr]

/-- The chunking worker applied with enough fuel to a buffer of length
`16 * k` yields `k` blocks. -/
lemma chunkGo_len : ∀ (fuel k : Nat) (l : List Nat),
    l.length = 16 * k → l.length ≤ fuel → (chunkGo fuel l).length = k := by
  intro fuel
  induction fuel with
  | zero =>
    intro k l h hle
    have hl : l = [] := List.eq_nil_of_length_eq_zero (by omega)
    subst hl
    have hk : k = 0 := by omega
    subst hk
    rfl
  | succ fuel ih =>
    intro k l h hle
    rcases l with _ | ⟨x, xs⟩
    · have hk : k = 0 := by simp at h; omega
      subst hk
      rfl
    · rcases k with _ | k
      · simp at h
      · simp only [chunkGo, List.length_cons]
        have hd : ((x :: xs).drop 16).length = 16 * k := by
          rw [List.length_drop]
          simp only [List.length_cons] at h ⊢
          omega
        have hle2 : ((x :: xs).drop 16).length ≤ fuel := by
          rw [List.length_drop]
          simp only [List.length_cons] at hle ⊢
          omega
        rw [ih k _ hd hle2]

/-- A word array of length `16 * k` yields `k` blocks. -/
lemma chunk16_len (k : Nat) (l : List Nat) (h : l.length = 16 * k) : (chunk16 l).length = k :=
  chunkGo_len l.length k l h (Nat.le_refl _)

namespace Complete1

/-- The guarded inner loop of `sm3_4kb_optimized` consumes exactly
`min (jmax - j) (65 - (i + j))` blocks, folding them in order. -/
lemma innerLoop_spec : ∀ (n jmax i j : Nat) (st : List Nat) (bs : List (List Nat)),
    n = min (jmax - j) (65 - (i + j)) → n ≤ bs.length →
    innerLoop jmax i j st bs = (List.foldl sm3_compress_hw st (bs.take n), bs.drop n) := by
  intro n
  induction n with
  | zero =>
    intro jmax i j st bs hn hlen
    have hcond : ¬(j < jmax ∧ i + j < 65) := by omega
    rcases bs with _ | ⟨b, rest⟩
    · simp [innerLoop]
    · simp [innerLoop, hcond]
  | succ n ih =>
    intro jmax i j st bs hn hlen
    have hcond : j < jmax ∧ i + j < 65 := by omega
    rcases bs with _ | ⟨b, rest⟩
    · exact absurd hlen (by simp)
    · rw [innerLoop, if_pos hcond]
      have h1 : n = min (jmax - (j + 1)) (65 - (i + (j + 1))) := by omega
      have h2 : n ≤ rest.length := by simpa using hlen
      rw [ih jmax i (j + 1) (sm3_compress_hw st b) rest h1 h2]
      simp

/-- The unrolled outer loop of `sm3_4kb_optimized`, started at a multiple of 8
with exactly the remaining number of blocks, folds all blocks in order. -/
lemma outerLoop_spec : ∀ (n i : Nat) (st : List Nat) (bs : List (List Nat)),
    n = 65 - i → i % 8 = 0 → bs.length = 65 - i →
    outerLoop i st bs = (List.foldl sm3_compress_hw st bs, []) := by
  intro n
  induction n using Nat.strong_induction_on with
  | _ n ih =>
    intro i st bs hn hmod hlen
    by_cases hi : i < 65
    case neg =>
      have hbs : bs = [] := List.eq_nil_of_length_eq_zero (by omega)
      subst hbs
      rw [outerLoop, if_neg hi]
      simp
    case pos =>
      rw [outerLoop, if_pos hi]
      by_cases h64 : i = 64
      · subst h64
        rw [innerLoop_spec 1 4 64 0 st bs (by omega) (by omega)]
        dsimp only
        rw [innerLoop_spec 0 8 64 4 (List.foldl sm3_compress_hw st (bs.take 1)) (bs.drop 1)
              (by omega) (by omega)]
        dsimp only
        rw [outerLoop, if_neg (by omega)]
        have ht : bs.take 1 = bs := List.take_of_length_le (by omega)
        have hd : bs.drop 1 = [] := List.drop_eq_nil_of_le (by omega)
        simp [ht, hd]
      · have h56 : i ≤ 56 := by omega
        rw [innerLoop_spec 4 4 i 0 st bs (by omega) (by omega)]
        dsimp only
        rw [innerLoop_spec 4 8 i 4 (List.foldl sm3_compress_hw st (bs.take 4)) (bs.drop 4)
              (by omega) (by simp; omega)]
        dsimp only
        rw [ih (65 - (i + 8)) (by omega) (i + 8) _ _ (by omega) (by omega) (by simp; omega)]
        have hfold :
            List.foldl sm3_compress_hw
              (List.foldl sm3_compress_hw (List.foldl sm3_compress_hw st (bs.take 4))
                ((bs.drop 4).take 4)) ((bs.drop 4).drop 4) =
            List.foldl sm3_compress_hw st bs := by
          rw [← List.foldl_append, ← List.foldl_append, List.take_append_drop,
              List.take_append_drop]
        rw [hfold]

/-- For any chunk size `q`, the ranges `[w*q, w*q+q)` for `w < t-1` together
with the final range `[(t-1)*q, N)` cover every `i < N` exactly once. -/
lemma worker_cover (t i N q : Nat) (ht : 1 ≤ t) (hi : i < N) :
    ∃! w, w < t ∧ w * q ≤ i ∧ i < (if w = t - 1 then N else w * q + q) := by
  by_cases hq : q = 0
  · subst hq
    refine ⟨t - 1, ⟨by omega, by simp, by simp [hi]⟩, ?_⟩
    rintro w ⟨hw, hws, hwe⟩
    by_contra hne
    rw [if_neg hne] at hwe
    simp at hwe
  · have hqpos : 0 < q := Nat.pos_of_ne_zero hq
    obtain ⟨k, r, hkr, hrlt⟩ : ∃ k r, i = k * q + r ∧ r < q :=
      ⟨i / q, i % q, by rw [Nat.mul_comm]; exact (Nat.div_add_mod i q).symm, Nat.mod_lt i hqpos⟩
    have hkle : k * q ≤ i := by rw [hkr]; exact Nat.le_add_right _ _
    have hklt : i < (k + 1) * q := by rw [Nat.succ_mul, hkr]; exact Nat.add_lt_add_left hrlt _
    by_cases hcase : k < t - 1
    · refine ⟨k, ⟨by omega, hkle, ?_⟩, ?_⟩
      · rw [if_neg (by omega : ¬ k = t - 1), ← Nat.succ_mul]
        exact hklt
      · rintro w ⟨hw, hws, hwe⟩
        by_cases hwne : w = t - 1
        · exfalso
          subst hwne
          have h1 : (k + 1) * q ≤ (t - 1) * q := Nat.mul_le_mul_right q (by omega)
          exact absurd (lt_of_lt_of_le hklt (le_trans h1 hws)) (lt_irrefl i)
        · rw [if_neg hwne, ← Nat.succ_mul] at hwe
          rcases Nat.lt_trichotomy w k with hlt | heq | hgt
          · exfalso
            have h1 : (w + 1) * q ≤ k * q := Nat.mul_le_mul_right q (by omega)
            exact absurd (lt_of_lt_of_le hwe (le_trans h1 hkle)) (lt_irrefl i)
          · exact heq
          · exfalso
            have h1 : (k + 1) * q ≤ w * q := Nat.mul_le_mul_right q (by omega)
            exact absurd (lt_of_lt_of_le hklt (le_trans h1 hws)) (lt_irrefl i)
    · refine ⟨t - 1, ⟨by omega, ?_, by rw [if_pos rfl]; exact hi⟩, ?_⟩
      · have h1 : (t - 1) * q ≤ k * q := Nat.mul_le_mul_right q (by omega)
        exact le_trans h1 hkle
      · rintro w ⟨hw, hws, hwe⟩
        by_contra hne
        rw [if_neg hne, ← Nat.succ_mul] at hwe
        have h1 : (w + 1) * q ≤ k * q := Nat.mul_le_mul_right q (by omega)
        exact absurd (lt_of_lt_of_le hwe (le_trans h1 hkle)) (lt_irrefl i)

/-- Every message index `i < N` lies in the range of exactly one of the `t`
workers of `thread_worker`. -/
lemma exists_unique_worker (N t i : Nat) (ht : 1 ≤ t) (hi : i < N) :
    ∃! w, w < t ∧ start_block w N t ≤ i ∧ i < end_block w N t := by
  have hs : ∀ w, start_block w N t = w * (N / t) := fun w => rfl
  have he : ∀ w, end_block w N t = (if w = t - 1 then N else w * (N / t) + N / t) :=
    fun w => rfl
  simpa [hs, he] using worker_cover t i N (N / t) ht hi

/-- `applyWrites` preserves the length of the output buffer. -/
lemma applyWrites_length : ∀ (ws : List (Nat × List Nat)) (out : List (Option (List Nat))),
    (applyWrites out ws).length = out.length := by
  intro ws
  induction ws with
  | nil => intro out; rfl
  | cons p rest ih =>
    intro out
    rw [applyWrites, ih, List.length_set]

/-- Slots no write targets are left unchanged by `applyWrites`. -/
lemma applyWrites_not_mem : ∀ (ws : List (Nat × List Nat)) (out : List (Option (List Nat)))
    (i : Nat), i ∉ ws.map Prod.fst → (applyWrites out ws)[i]? = out[i]? := by
  intro ws
  induction ws with
  | nil => intro out i _; rfl
  | cons p rest ih =>
    intro out i hmem
    simp only [List.map_cons, List.mem_cons, not_or] at hmem
    obtain ⟨hne, hrest⟩ := hmem
    rw [applyWrites, ih _ i hrest]
    exact List.getElem?_set_ne (by omega)

/-- If every write stores `f` of its own index and some write targets `i`,
then after `applyWrites` slot `i` holds `some (f i)`. -/
lemma applyWrites_mem (f : Nat → List Nat) : ∀ (ws : List (Nat × List Nat))
    (out : List (Option (List Nat))) (i : Nat),
    (∀ p ∈ ws, p.2 = f p.1) → i ∈ ws.map Prod.fst → i < out.length →
    (applyWrites out ws)[i]? = some (some (f i)) := by
  intro ws
  induction ws with
  | nil => intro out i _ hmem _; simp at hmem
  | cons p rest ih =>
    intro out i hf hmem hlen
    rw [applyWrites]
    by_cases hr : i ∈ rest.map Prod.fst
    · exact ih _ i (fun x hx => hf x (List.mem_cons_of_mem p hx)) hr
        (by rw [List.length_set]; exact hlen)
    · have hip : i = p.1 := by
        simp only [List.map_cons, List.mem_cons] at hmem
        tauto
      rw [applyWrites_not_mem rest _ i hr, hip,
          List.getElem?_set_eq_of_lt _ (by rw [← hip]; exact hlen),
          hf p (List.mem_cons_self p rest)]

/-- The output slot for message `i` after running all `t` workers holds the
single-message digest of message `i`. -/
lemma parallel_writes_getD (msgs : List (List Nat)) (out0 : List (Option (List Nat)))
    (t i : Nat) (ht : 1 ≤ t) (hout : out0.length = msgs.length) (hi : i < msgs.length) :
    (applyWrites out0 ((List.range t).flatMap (thread_worker msgs t))).getD i none
      = some (sm3_4kb_optimized (msgs.getD i [])) := by
  have hall : ∀ p ∈ (List.range t).flatMap (thread_worker msgs t),
      p.2 = sm3_4kb_optimized (msgs.getD p.1 []) := by
    intro p hp
    simp only [List.mem_flatMap] at hp
    obtain ⟨w, hw, hpw⟩ := hp
    unfold thread_worker at hpw
    simp only [List.mem_map] at hpw
    obtain ⟨j, hj, rfl⟩ := hpw
    rfl
  have hmem : i ∈ ((List.range t).flatMap (thread_worker msgs t)).map Prod.fst := by
    obtain ⟨w, ⟨hw, hws, hwe⟩, -⟩ := exists_unique_worker msgs.length t i ht hi
    rw [List.map_flatMap]
    simp only [List.mem_flatMap]
    refine ⟨w, List.mem_range.mpr hw, ?_⟩
    unfold thread_worker
    rw [List.map_map]
    simp only [Function.comp_def, List.map_id']
    have hse : start_block w msgs.length t ≤ end_block w msgs.length t :=
      le_trans hws (le_of_lt hwe)
    rw [List.mem_range'_1]
    exact ⟨hws, by rw [Nat.add_sub_cancel' hse]; exact hwe⟩
  rw [List.getD_eq_getElem?_getD,
      applyWrites_mem (fun j => sm3_4kb_optimized (msgs.getD j [])) _ out0 i hall hmem
        (by omega)]
  rfl

end Complete1

end SM3Spec

/-- The 256-bit hybrid digest depends on its input only through the 256-byte
XOR fold: the second stage is a function of `xorFold input` alone. -/
lemma aes_factor (m1 m2 : List Nat) (hf : SM3Spec.AesV.xorFold m1 = SM3Spec.AesV.xorFold m2) :
    SM3Spec.AesV.aes_sm3_integrity_256bit m1 = SM3Spec.AesV.aes_sm3_integrity_256bit m2 := by
  unfold SM3Spec.AesV.aes_sm3_integrity_256bit
  rw [hf]

/-- The XOR fold does not distinguish the all-zero message from its copy with
byte 0 and byte 8 both set to 1: the two changed bytes sit at offsets that
differ by 8 inside group 0, so their flips cancel in the fold; groups 1..31
are untouched. -/
lemma fold_eq_pair :
    SM3Spec.AesV.xorFold (List.replicate 4096 0)
      = SM3Spec.AesV.xorFold (((List.replicate 4096 0).set 0 1).set 8 1) := by
  unfold SM3Spec.AesV.xorFold
  refine List.flatMap_congr ?_
  intro i _
  rcases Nat.eq_zero_or_pos i with h0 | hpos
  · subst h0
    decide
  · have h8 : List.drop (128 * i) (((List.replicate 4096 (0 : Nat)).set 0 1).set 8 1)
        = List.drop (128 * i) (List.replicate 4096 (0 : Nat)) := by
      rw [List.drop_set_of_lt _ _ (by omega : 8 < 128 * i),
          List.drop_set_of_lt _ _ (by omega : 0 < 128 * i)]
    rw [h8]

/-- Claim C1 is false of the code: at round `j = 1` (with `A = E = 0`) neither
source file computes `SS1 = rotl(rotl(A,12) + E + rotl(Tj, j mod 32), 7)`.
`sm3_4kb_complete1.c` adds the unrotated table entry `0x79cc4519` (no
per-round rotation at all), and `aes_sm3_integrity.c` applies a truncating
left shift to an already-rotated table entry. -/
theorem claim_C1 :
    SM3Spec.Complete1.roundSS1 0 0 1
      ≠ SM3Spec.rotl32 ((SM3Spec.rotl32 0 12 + 0 + SM3Spec.rotl32 0x79cc4519 1) % 2 ^ 32) 7 ∧
    SM3Spec.AesV.roundSS1 0 0 1
      ≠ SM3Spec.rotl32 ((SM3Spec.rotl32 0 12 + 0 + SM3Spec.rotl32 0x79cc4519 1) % 2 ^ 32) 7 := by
  decide

/-- Claim C2 is false of the code: the digest of the ASCII message "abc",
padded per the §4.1 rule and folded through `Complete1.sm3_compress_hw` from
the SM3 IV, is `4ae03259…44ee`, not the published SM3 test digest
`66c7f0f4…a8e0` (the compression function omits the per-round rotation of the
`Tj` constant). -/
theorem claim_C2 :
    SM3Spec.digest_per_spec_pad [0x61, 0x62, 0x63] =
      [0x4a, 0xe0, 0x32, 0x59, 0x04, 0x03, 0x05, 0x4f,
       0x45, 0x9d, 0xa8, 0x44, 0x00, 0xe6, 0xc7, 0xe5,
       0x0b, 0x80, 0x8a, 0x3e, 0x1c, 0x78, 0xf9, 0x85,
       0x94, 0xc8, 0x77, 0x4a, 0x0f, 0x1a, 0x44, 0xee] ∧
    SM3Spec.digest_per_spec_pad [0x61, 0x62, 0x63] ≠
      [0x66, 0xc7, 0xf0, 0xf4, 0x62, 0xee, 0xed, 0xd9,
       0xd1, 0xf2, 0xd4, 0x6b, 0xdc, 0x10, 0xe4, 0xe2,
       0x41, 0x67, 0xc4, 0x87, 0x5c, 0xf2, 0xf7, 0xa2,
       0x29, 0x7d, 0xa0, 0x2b, 0x8f, 0x4b, 0xa8, 0xe0] := by
  constructor
  · decide
  · decide

/-- Claim C3 at the only length the source padding function supports
(`L = 4096`): the padded buffer has length `4160 = ceil((4096+9)/64)*64`, a
multiple of 64; it starts with the message; and the 64-byte tail is the
marker byte `0x80`, 55 zero bytes, and the big-endian 64-bit encoding of
`4096 * 8 = 32768`. -/
theorem claim_C3 (input : List Nat) (h : input.length = 4096) :
    (SM3Spec.Complete1.sm3_padding_4kb input).length = 4160 ∧
    4160 % 64 = 0 ∧
    4160 = (4096 + 9 + 63) / 64 * 64 ∧
    (SM3Spec.Complete1.sm3_padding_4kb input).take 4096 = input ∧
    (SM3Spec.Complete1.sm3_padding_4kb input).drop 4096 =
      [0x80, 0, 0, 0, 0, 0, 0, 0, 0, 0, 0, 0, 0, 0, 0, 0,
       0, 0, 0, 0, 0, 0, 0, 0, 0, 0, 0, 0, 0, 0, 0, 0,
       0, 0, 0, 0, 0, 0, 0, 0, 0, 0, 0, 0, 0, 0, 0, 0,
       0, 0, 0, 0, 0, 0, 0, 0, 0, 0, 0, 0, 0, 0, 0x80, 0] := by
  have htake : input.take 4096 = input := List.take_of_length_le (by omega)
  have hpad : SM3Spec.Complete1.sm3_padding_4kb input
      = input ++ ([0x80] ++ (List.replicate 55 0 ++ SM3Spec.le64bytes (SM3Spec.bswap64 (4096 * 8)))) := by
    unfold SM3Spec.Complete1.sm3_padding_4kb
    rw [htake, List.append_assoc, List.append_assoc]
  refine ⟨?_, by decide, by decide, ?_, ?_⟩
  · rw [hpad, List.length_append, h]
    decide
  · rw [hpad, ← h, List.take_left]
  · rw [hpad, List.drop_append_eq_append_drop,
        List.drop_eq_nil_of_le (show input.length ≤ 4096 by omega)]
    have h0 : 4096 - input.length = 0 := by omega
    rw [h0]
    decide

/-- Witness for claim C3 at the all-zero 4096-byte message. -/
theorem claim_C3_witness :
    (List.replicate 4096 (0 : Nat)).length = 4096 ∧
    ((SM3Spec.Complete1.sm3_padding_4kb (List.replicate 4096 0)).length = 4160 ∧
     4160 % 64 = 0 ∧
     4160 = (4096 + 9 + 63) / 64 * 64 ∧
     (SM3Spec.Complete1.sm3_padding_4kb (List.replicate 4096 0)).take 4096 = List.replicate 4096 0 ∧
     (SM3Spec.Complete1.sm3_padding_4kb (List.replicate 4096 0)).drop 4096 =
       [0x80, 0, 0, 0, 0, 0, 0, 0, 0, 0, 0, 0, 0, 0, 0, 0,
        0, 0, 0, 0, 0, 0, 0, 0, 0, 0, 0, 0, 0, 0, 0, 0,
        0, 0, 0, 0, 0, 0, 0, 0, 0, 0, 0, 0, 0, 0, 0, 0,
        0, 0, 0, 0, 0, 0, 0, 0, 0, 0, 0, 0, 0, 0, 0x80, 0]) :=
  ⟨List.length_replicate 4096 0, claim_C3 (List.replicate 4096 0) (List.length_replicate 4096 0)⟩

/-- Claim C10: the hybrid integrity function depends on its 4096-byte input
only through the 256-byte XOR fold, and consequently two distinct inputs —
the all-zero message and its copy with byte 0 and byte 8 both set to 1 (the
same bit flipped at two offsets that differ by 8 within one 128-byte group) —
produce identical 256-bit digests. -/
theorem claim_C10 :
    (∀ m1 m2 : List Nat, m1.length = 4096 → m2.length = 4096 →
      SM3Spec.AesV.xorFold m1 = SM3Spec.AesV.xorFold m2 →
      SM3Spec.AesV.aes_sm3_integrity_256bit m1 = SM3Spec.AesV.aes_sm3_integrity_256bit m2) ∧
    (∃ m1 m2 : List Nat, m1.length = 4096 ∧ m2.length = 4096 ∧ m1 ≠ m2 ∧
      SM3Spec.AesV.aes_sm3_integrity_256bit m1 = SM3Spec.AesV.aes_sm3_integrity_256bit m2) := by
  constructor
  · intro m1 m2 _ _ hf
    exact aes_factor m1 m2 hf
  · refine ⟨List.replicate 4096 0, ((List.replicate 4096 0).set 0 1).set 8 1, ?_, ?_, ?_, ?_⟩
    · exact List.length_replicate 4096 0
    · rw [List.length_set, List.length_set]
      exact List.length_replicate 4096 0
    · decide
    · exact aes_factor _ _ fold_eq_pair

/-- Witness for claim C10: the factoring property applied to the concrete
collision pair, with the hypotheses discharged by computation. -/
theorem claim_C10_witness :
    ((List.replicate 4096 (0 : Nat)).length = 4096 ∧
     (((List.replicate 4096 (0 : Nat)).set 0 1).set 8 1).length = 4096) ∧
    SM3Spec.AesV.aes_sm3_integrity_256bit (List.replicate 4096 0)
      = SM3Spec.AesV.aes_sm3_integrity_256bit (((List.replicate 4096 0).set 0 1).set 8 1) :=
  ⟨⟨List.length_replicate 4096 0,
    by rw [List.length_set, List.length_set]; exact List.length_replicate 4096 0⟩,
   claim_C10.1 (List.replicate 4096 0) (((List.replicate 4096 0).set 0 1).set 8 1)
     (List.length_replicate 4096 0)
     (by rw [List.length_set, List.length_set]; exact List.length_replicate 4096 0)
     fold_eq_pair⟩

/-- Claim C4: for every 4096-byte message, `sm3_4kb_optimized` initializes the
state to the SM3 IV, feeds exactly the 65 consecutive 64-byte blocks of the
padded buffer through the compression function strictly in order (the unrolled
double loop equals the plain in-order fold), and serializes the final state as
8 big-endian 32-bit words. -/
theorem claim_C4 (input : List Nat) (h : input.length = 4096) :
    SM3Spec.Complete1.sm3_4kb_optimized input =
      ((SM3Spec.chunk16 (SM3Spec.toWordsLE (SM3Spec.Complete1.sm3_padding_4kb input))).foldl
          SM3Spec.Complete1.sm3_compress_hw SM3Spec.Complete1.SM3_IV).flatMap
        (fun w => SM3Spec.le32bytes (SM3Spec.bswap32 w)) ∧
    (SM3Spec.chunk16 (SM3Spec.toWordsLE (SM3Spec.Complete1.sm3_padding_4kb input))).length = 65 := by
  have hpad : (SM3Spec.Complete1.sm3_padding_4kb input).length = 4160 := by
    simp [SM3Spec.Complete1.sm3_padding_4kb, SM3Spec.le64bytes, h]
  have hwords : (SM3Spec.toWordsLE (SM3Spec.Complete1.sm3_padding_4kb input)).length = 1040 :=
    SM3Spec.toWordsLE_len 1040 _ (by omega)
  have hblocks :
      (SM3Spec.chunk16 (SM3Spec.toWordsLE (SM3Spec.Complete1.sm3_padding_4kb input))).length = 65 :=
    SM3Spec.chunk16_len 65 _ (by omega)
  refine ⟨?_, hblocks⟩
  unfold SM3Spec.Complete1.sm3_4kb_optimized
  rw [SM3Spec.Complete1.outerLoop_spec 65 0 SM3Spec.Complete1.SM3_IV _ (by omega) (by omega)
        (by omega)]

/-- Witness for claim C4 at the all-zero 4096-byte message. -/
theorem claim_C4_witness :
    (List.replicate 4096 (0 : Nat)).length = 4096 ∧
    (SM3Spec.Complete1.sm3_4kb_optimized (List.replicate 4096 0) =
      ((SM3Spec.chunk16 (SM3Spec.toWordsLE (SM3Spec.Complete1.sm3_padding_4kb (List.replicate 4096 0)))).foldl
          SM3Spec.Complete1.sm3_compress_hw SM3Spec.Complete1.SM3_IV).flatMap
        (fun w => SM3Spec.le32bytes (SM3Spec.bswap32 w)) ∧
     (SM3Spec.chunk16 (SM3Spec.toWordsLE (SM3Spec.Complete1.sm3_padding_4kb (List.replicate 4096 0)))).length = 65) :=
  ⟨List.length_replicate 4096 0, claim_C4 (List.replicate 4096 0) (List.length_replicate 4096 0)⟩

/-- Claim C5: for every array of 4096-byte messages and every thread hint in
{1,2,4,8} (with at least one available core and a right-sized output buffer),
output slot `i` of the batch dispatcher holds exactly the single-message
digest `sm3_4kb_optimized` of message `i`, and the output length matches the
input length — output order matches input order regardless of thread count
(the case `N = 0` holds vacuously, `N = 1` is covered). -/
theorem claim_C5 (msgs : List (List Nat)) (out0 : List (Option (List Nat)))
    (hint cores i : Nat)
    (hhint : hint = 1 ∨ hint = 2 ∨ hint = 4 ∨ hint = 8)
    (hcores : 1 ≤ cores) (hout : out0.length = msgs.length) (hi : i < msgs.length) :
    (SM3Spec.Complete1.sm3_4kb_parallel msgs out0 hint cores).getD i none
      = some (SM3Spec.Complete1.sm3_4kb_optimized (msgs.getD i [])) ∧
    (SM3Spec.Complete1.sm3_4kb_parallel msgs out0 hint cores).length = msgs.length := by
  have ht1 : 1 ≤ SM3Spec.Complete1.numThreads hint cores := by
    unfold SM3Spec.Complete1.numThreads
    rcases hhint with h | h | h | h <;> subst h <;> split <;> omega
  constructor
  · unfold SM3Spec.Complete1.sm3_4kb_parallel
    exact SM3Spec.Complete1.parallel_writes_getD msgs out0 _ i ht1 hout hi
  · unfold SM3Spec.Complete1.sm3_4kb_parallel
    rw [SM3Spec.Complete1.applyWrites_length]
    exact hout

/-- Witness for claim C5: a two-message batch with thread hint 2 on 4 cores;
slot 0 holds the digest of message 0. -/
theorem claim_C5_witness :
    ((List.replicate 4096 (0 : Nat)) :: [List.replicate 4096 1]).length = 2 ∧
    ((SM3Spec.Complete1.sm3_4kb_parallel
        ((List.replicate 4096 0) :: [List.replicate 4096 1]) [none, none] 2 4).getD 0 none
      = some (SM3Spec.Complete1.sm3_4kb_optimized
          (((List.replicate 4096 0) :: [List.replicate 4096 1]).getD 0 [])) ∧
     (SM3Spec.Complete1.sm3_4kb_parallel
        ((List.replicate 4096 0) :: [List.replicate 4096 1]) [none, none] 2 4).length = 2) :=
  ⟨rfl, claim_C5 ((List.replicate 4096 0) :: [List.replicate 4096 1]) [none, none] 2 4 0
    (Or.inr (Or.inl rfl)) (by omega) rfl (by decide)⟩

/-- Claim C6: the 128-bit digest is the first 16 bytes of the 256-bit digest,
for both the pure SM3 engine (`sm3_4kb_128bit`) and the hybrid variant
(`aes_sm3_integrity_128bit`). -/
theorem claim_C6 (input : List Nat) :
    SM3Spec.Complete1.sm3_4kb_128bit input = (SM3Spec.Complete1.sm3_4kb_optimized input).take 16 ∧
    SM3Spec.AesV.aes_sm3_integrity_128bit input
      = (SM3Spec.AesV.aes_sm3_integrity_256bit input).take 16 :=
  ⟨rfl, rfl⟩

/-- Claim C7 (as stated) is false: the dispatcher clamps the thread count only
to the available cores, never to the message count.  With hint 4, 8 cores and
a single message the code spawns 4 workers, not `min(4, 8, 1) = 1`. -/
theorem claim_C7_counterexample :
    SM3Spec.Complete1.numThreads 4 8 = 4 ∧
    SM3Spec.Complete1.numThreads 4 8 ≠ min (min 4 8) 1 := by
  decide

/-- Claim C7 (amended): the number of worker threads spawned equals
`min(thread_hint, available_cores)`, independent of the message count; for
`N = 0` the spawned workers all have empty ranges, so the dispatcher leaves
the output buffer untouched (an empty result), although threads are still
spawned. -/
theorem claim_C7 (h c : Nat) (out0 : List (Option (List Nat))) :
    SM3Spec.Complete1.numThreads h c = min h c ∧
    SM3Spec.Complete1.sm3_4kb_parallel [] out0 h c = out0 := by
  constructor
  · unfold SM3Spec.Complete1.numThreads
    split <;> omega
  · unfold SM3Spec.Complete1.sm3_4kb_parallel
    have hw : ∀ w, SM3Spec.Complete1.thread_worker [] (SM3Spec.Complete1.numThreads h c) w = [] := by
      intro w
      unfold SM3Spec.Complete1.thread_worker SM3Spec.Complete1.end_block
        SM3Spec.Complete1.start_block SM3Spec.Complete1.blocks_per_thread
      split <;> simp
    rw [List.flatMap_eq_nil_iff.mpr (fun w _ => hw w)]
    rfl

/-- Claim C8: the per-worker index ranges of `thread_worker` are contiguous
(each non-final range ends where the next begins) and every message index
`i < N` belongs to exactly one worker's range, so every output slot is
written by exactly one worker. -/
theorem claim_C8 (N t : Nat) (ht : 1 ≤ t) :
    (∀ w, w + 1 < t →
      SM3Spec.Complete1.end_block w N t = SM3Spec.Complete1.start_block (w + 1) N t) ∧
    (∀ i, i < N → ∃! w, w < t ∧
      SM3Spec.Complete1.start_block w N t ≤ i ∧ i < SM3Spec.Complete1.end_block w N t) := by
  constructor
  · intro w hw
    unfold SM3Spec.Complete1.end_block SM3Spec.Complete1.start_block
      SM3Spec.Complete1.blocks_per_thread
    rw [if_neg (by omega : ¬ w = t - 1), Nat.succ_mul]
  · intro i hi
    exact SM3Spec.Complete1.exists_unique_worker N t i ht hi

/-- Witness for claim C8 at `N = 5`, `t = 2`. -/
theorem claim_C8_witness :
    1 ≤ 2 ∧
    ((∀ w, w + 1 < 2 →
      SM3Spec.Complete1.end_block w 5 2 = SM3Spec.Complete1.start_block (w + 1) 5 2) ∧
    (∀ i, i < 5 → ∃! w, w < 2 ∧
      SM3Spec.Complete1.start_block w 5 2 ≤ i ∧ i < SM3Spec.Complete1.end_block w 5 2)) :=
  ⟨by omega, claim_C8 5 2 (by omega)⟩

/-- Claim C9 is false of the code: when the padded-buffer allocation fails,
`sm3_4kb_batch_optimized` returns immediately, leaving the caller's output
buffer exactly as it was (here the single undefined slot `none`), with no
error indication of any kind — nothing is propagated to the caller. -/
theorem claim_C9 :
    SM3Spec.Complete1.sm3_4kb_batch_optimized false [List.replicate 4096 0] [none] 4 = [none] :=
  rfl
